import Mathlib

/-!
Verification development for the `webtorrent-movie-server` repository.

The embedding covers:
* `src/video_server/io.py` — `sanitize_path` (character replacement followed by
  two `while` loops that strip trailing underscores and collapse runs of
  underscores, both guarded by `len(out) > 4`);
* `src/webtorrent_movie_server/app.py` — `seed_movie` (scan the seeding
  process's stdout for a `magnetURI: ` marker line), `upload` (temp file,
  publish-or-reject, cleanup in `finally`), `touch`/`clear`, and
  `api_add_view` (`/accessMagnetURI`).

The filesystem and the `KeyValueSqlite` store are modelled as association
lists from string keys; uploaded file contents are byte lists; the seeding
subprocess's stdout is a list of lines (each a list of characters), matching
`iter(process.stdout.readline, "")` which yields lines until end of stream.
Python loops are embedded with explicit fuel bounded by the string length,
which never runs out because each iteration shortens the string.
-/

namespace Wms

/-! ### Association lists: the model of the filesystem and of the key-value store -/

def alookup {α : Type} : List (String × α) → String → Option α
  | [], _ => none
  | e :: rest, k => if e.1 = k then some e.2 else alookup rest k

def aremove {α : Type} : List (String × α) → String → List (String × α)
  | [], _ => []
  | e :: rest, k => if e.1 = k then aremove rest k else e :: aremove rest k

def aset {α : Type} (l : List (String × α)) (k : String) (v : α) : List (String × α) :=
  (k, v) :: aremove l k

def aexists {α : Type} (l : List (String × α)) (k : String) : Bool :=
  (alookup l k).isSome

/-! ### `sanitize_path` from `src/video_server/io.py`

The chained `.replace(c, "_")` calls each replace every occurrence of a single
character; since `_` itself is never replaced, the chain equals one map over
the characters. The external `pathvalidate.sanitize_filepath` routine is an
opaque collaborator and is taken as an arbitrary function `base`. -/

def replacedChars : List Char :=
  [32, 47, 92, 46, 45, 44, 58, 59, 40, 41, 91, 93, 123, 125, 60, 62, 63, 33,
   64, 35, 36, 37, 94, 38, 42, 43, 61, 124, 126, 96, 39, 34, 9, 10, 13].map Char.ofNat

def isBadChar (c : Char) : Bool := replacedChars.contains c

def replaceBad (s : List Char) : List Char :=
  s.map fun c => if isBadChar c then '_' else c

/-- `while len(out) > 4 and out[-1] == "_": out = out[:-1]` with explicit fuel;
each iteration drops one character, so fuel `s.length` suffices. -/
def stripFuel : Nat → List Char → List Char
  | 0, s => s
  | n + 1, s =>
      if 4 < s.length ∧ s.getLast? = some '_' then stripFuel n s.dropLast else s

/-- `"__" in out` -/
def hasDU : List Char → Bool
  | [] => false
  | [_] => false
  | c1 :: c2 :: rest => ((c1 == '_') && (c2 == '_')) || hasDU (c2 :: rest)

/-- Python's `out.replace("__", "_")`: one left-to-right pass replacing
non-overlapping occurrences. -/
def collapseOnce : List Char → List Char
  | [] => []
  | [c] => [c]
  | c1 :: c2 :: rest =>
      if c1 = '_' ∧ c2 = '_' then '_' :: collapseOnce rest
      else c1 :: collapseOnce (c2 :: rest)

/-- `while len(out) > 4 and "__" in out: out = out.replace("__", "_")` with
explicit fuel; each iteration shortens the string, so fuel `s.length`
suffices. -/
def collapseFuel : Nat → List Char → List Char
  | 0, s => s
  | n + 1, s =>
      if 4 < s.length ∧ hasDU s = true then collapseFuel n (collapseOnce s) else s

def sanitize_path (base : List Char → List Char) (path : List Char) : List Char :=
  collapseFuel
    (stripFuel (replaceBad (base path)).length (replaceBad (base path))).length
    (stripFuel (replaceBad (base path)).length (replaceBad (base path)))

/-! ### `seed_movie` from `src/webtorrent_movie_server/app.py`

The scan loop reads lines until the marker line or end of stream; on the
marker line it computes `line.split(" ")[1].strip()`, stores it under
`magnetURI`, and stops.  End of stream without a marker line trips
`assert magnet_uri is not None` (modelled as `none`, state untouched). -/

def markerPfx : List Char := "magnetURI: ".data

/-- Python `str.strip()` whitespace, restricted to the ASCII range. -/
def isPySpace (c : Char) : Bool :=
  (c == ' ') || (c == '\t') || (c == '\n') || (c == '\r') ||
    (c.toNat == 11) || (c.toNat == 12)

def pyStrip (s : List Char) : List Char :=
  ((s.dropWhile isPySpace).reverse.dropWhile isPySpace).reverse

/-- Python's `line.split(" ")`: split on every single space, keeping empty
fields. -/
def splitSp : List Char → List (List Char)
  | [] => [[]]
  | c :: rest =>
      if c = ' ' then [] :: splitSp rest
      else
        match splitSp rest with
        | [] => [[c]]
        | w :: ws => (c :: w) :: ws

/-- `line.split(" ")[1].strip()` (the marker line always contains a space). -/
def extractUri (line : List Char) : List Char :=
  pyStrip ((splitSp line).getD 1 [])

def findMagnet : List (List Char) → Option (List Char)
  | [] => none
  | line :: rest =>
      if markerPfx.isPrefixOf line then some (extractUri line) else findMagnet rest

inductive Val where
  | vstr : String → Val
  | vint : Int → Val
deriving DecidableEq

abbrev AppState := List (String × Val)
abbrev FS := List (String × List Nat)

def seed_movie (lines : List (List Char)) (st : AppState) :
    Option (List Char) × AppState :=
  match findMagnet lines with
  | some uri => (some uri, aset st "magnetURI" (Val.vstr (String.mk uri)))
  | none => (none, st)

/-- The extraction behaviour the spec describes: the remainder of the marker
line after the prefix, up to the first whitespace character. Used to compare
the code's extraction against the claim's wording. -/
def specExtract (line : List Char) : List Char :=
  (line.drop markerPfx.length).takeWhile fun c => !(isPySpace c)

/-! ### `upload` from `src/webtorrent_movie_server/app.py`

`UploadEnv` packages the per-request environment: declared filename, uploaded
bytes, the random temp path, the lines the spawned seeding process will emit,
and whether the `os.remove` in the `finally` block raises `OSError` (and that
error's text).  `uploadTry` is the `try` block after the temp file is written;
`upload` wraps it with the extension check and the `finally` cleanup. -/

structure Response where
  status : Nat
  content : String
deriving DecidableEq

structure UploadEnv where
  filename : String
  content : List Nat
  tmpPath : String
  seedLines : List (List Char)
  removeTmpFails : Bool
  removeTmpErr : String

structure TryOut where
  magnet : Option String
  exc : Option String
  fs : FS
  st : AppState

/-- Python `str.endswith`. -/
def pyEndsWith (s tail : String) : Bool := tail.data.isSuffixOf s.data

def collisionMsg : String :=
  "There was an error uploading the file because: A file already exists with this file name but is different."

def noUriMsg : String :=
  "There was an error uploading the file because: Could not find magnet URI"

def deleteMsg (s : String) : String :=
  "There was an error deleting the temp file because: " ++ s

/-- The `try` block of `upload` after the temp file is written (`fs1` already
holds the temp file): publish-or-reject, then `seed_movie`. -/
def uploadTry (st : AppState) (fs1 : FS) (env : UploadEnv) : TryOut :=
  if aexists fs1 env.filename = false then
    match seed_movie env.seedLines st with
    | (some uri, st2) =>
        ⟨some (String.mk uri), none,
         aset (aremove fs1 env.tmpPath) env.filename
           ((alookup fs1 env.tmpPath).getD []), st2⟩
    | (none, _) =>
        ⟨none, some noUriMsg,
         aset (aremove fs1 env.tmpPath) env.filename
           ((alookup fs1 env.tmpPath).getD []), st⟩
  else
    if ((alookup fs1 env.filename).getD []).length
        = ((alookup fs1 env.tmpPath).getD []).length then
      match seed_movie env.seedLines st with
      | (some uri, st2) =>
          ⟨some (String.mk uri), none, aremove fs1 env.tmpPath, st2⟩
      | (none, _) =>
          ⟨none, some noUriMsg, aremove fs1 env.tmpPath, st⟩
    else ⟨none, some collisionMsg, fs1, st⟩

/-- The `finally` block: if the temp file still exists, remove it; a failing
`os.remove` raises `OSError`, which sets `exc_status_code = 500` and
**overwrites** `exc_string` with the deletion error. -/
def uploadFinally (t : TryOut) (env : UploadEnv) : FS × Option String :=
  if aexists t.fs env.tmpPath = true then
    if env.removeTmpFails = true then (t.fs, some (deleteMsg env.removeTmpErr))
    else (aremove t.fs env.tmpPath, t.exc)
  else (t.fs, t.exc)

/-- The tail of `upload`: error response when `exc_string` is set, else the
magnet URI as plain text. -/
def uploadRespond (t : TryOut) (fin : FS × Option String) :
    Response × FS × AppState :=
  match fin.2 with
  | some e => (⟨500, e⟩, fin.1, t.st)
  | none => (⟨200, t.magnet.getD ""⟩, fin.1, t.st)

def upload (st : AppState) (fs : FS) (env : UploadEnv) :
    Response × FS × AppState :=
  if pyEndsWith env.filename ".mp4" = false then
    (⟨410, "Invalid file type, must be mp4"⟩, fs, st)
  else
    uploadRespond (uploadTry st (aset fs env.tmpPath env.content) env)
      (uploadFinally (uploadTry st (aset fs env.tmpPath env.content) env) env)

/-! ### `touch`, `clear` and `api_add_view` from `src/webtorrent_movie_server/app.py` -/

def touch (fs : FS) (p : String) : FS :=
  match alookup fs p with
  | some _ => fs
  | none => aset fs p []

def clear (_st : AppState) (fs : FS) : Response × AppState × FS :=
  (⟨200, "Server queued for restart."⟩, ([] : AppState), touch fs "restart.file")

inductive JVal where
  | jnull : JVal
  | jstr : String → JVal
  | jint : Int → JVal
  | jbool : Bool → JVal
deriving DecidableEq

/-- `app_state.get(key, default)` rendered into the JSON response. -/
def kvGetJson (st : AppState) (k : String) (dflt : JVal) : JVal :=
  match alookup st k with
  | some (Val.vstr s) => JVal.jstr s
  | some (Val.vint n) => JVal.jint n
  | none => dflt

/-- `app_state.atomic_add(key, delta)`: a missing key behaves as 0. -/
def atomic_add (st : AppState) (k : String) (d : Int) : AppState :=
  aset st k (Val.vint
    ((match alookup st k with
      | some (Val.vint n) => n
      | _ => 0) + d))

/-- `GET /accessMagnetURI`. -/
def api_add_view (st : AppState) (add_view : Bool) :
    List (String × JVal) × AppState :=
  let st1 := if add_view then atomic_add st "views" 1 else st
  ([("views", kvGetJson st1 "views" (JVal.jint 0)),
    ("magnetURI", kvGetJson st1 "magnetURI" (JVal.jstr "None")),
    ("add_view", JVal.jbool add_view)], st1)

/-- Substring test (used to state what an error response reports). -/
def strContains (hay nd : String) : Bool :=
  (List.range (hay.data.length + 1)).any fun i => nd.data.isPrefixOf (hay.data.drop i)

/-! ### Association list lemmas -/

theorem alookup_aremove_self {α : Type} (l : List (String × α)) (k : String) :
    alookup (aremove l k) k = none := by
  induction l with
  | nil => rfl
  | cons e rest ih =>
      by_cases h1 : e.1 = k
      · simpa [aremove, h1] using ih
      · simpa [aremove, alookup, h1] using ih

theorem alookup_aremove_ne {α : Type} (l : List (String × α)) (k k2 : String)
    (h : k2 ≠ k) : alookup (aremove l k) k2 = alookup l k2 := by
  induction l with
  | nil => rfl
  | cons e rest ih =>
      by_cases h1 : e.1 = k
      · have h2 : e.1 ≠ k2 := by rw [h1]; exact Ne.symm h
        simp only [aremove, if_pos h1, alookup, if_neg h2]
        exact ih
      · simp only [aremove, if_neg h1, alookup]
        by_cases h2 : e.1 = k2
        · rw [if_pos h2, if_pos h2]
        · rw [if_neg h2, if_neg h2]
          exact ih

theorem alookup_aset_self {α : Type} (l : List (String × α)) (k : String) (v : α) :
    alookup (aset l k v) k = some v := by
  simp [aset, alookup]

theorem alookup_aset_ne {α : Type} (l : List (String × α)) (k : String) (v : α)
    (k2 : String) (h : k2 ≠ k) : alookup (aset l k v) k2 = alookup l k2 := by
  have h2 : k ≠ k2 := Ne.symm h
  simp only [aset, alookup, if_neg h2]
  exact alookup_aremove_ne l k k2 h

/-! ### Sanitizer lemmas (claims C7 and C8) -/

theorem stripFuel_post (n : Nat) : ∀ s : List Char, s.length ≤ n + 4 →
    ¬(4 < (stripFuel n s).length ∧ (stripFuel n s).getLast? = some '_') := by
  induction n with
  | zero =>
      intro s hs
      simp only [stripFuel]
      rintro ⟨h4, -⟩
      omega
  | succ n ih =>
      intro s hs
      simp only [stripFuel]
      by_cases hc : 4 < s.length ∧ s.getLast? = some '_'
      · rw [if_pos hc]
        exact ih _ (by rw [List.length_dropLast]; omega)
      · rw [if_neg hc]
        exact hc

theorem stripFuel_id (n : Nat) (s : List Char)
    (h : ¬(4 < s.length ∧ s.getLast? = some '_')) : stripFuel n s = s := by
  cases n with
  | zero => rfl
  | succ n => simp only [stripFuel, if_neg h]

theorem mem_stripFuel (n : Nat) : ∀ s c, c ∈ stripFuel n s → c ∈ s := by
  induction n with
  | zero => intro s c h; exact h
  | succ n ih =>
      intro s c h
      simp only [stripFuel] at h
      by_cases hc : 4 < s.length ∧ s.getLast? = some '_'
      · rw [if_pos hc] at h
        exact List.dropLast_subset s (ih _ c h)
      · rwa [if_neg hc] at h

theorem collapseOnce_cons (a : Char) (l : List Char) : collapseOnce (a :: l) ≠ [] := by
  cases l with
  | nil => simp [collapseOnce]
  | cons b t =>
      simp only [collapseOnce]
      split <;> simp

theorem collapseOnce_last : ∀ s : List Char,
    (collapseOnce s).getLast? = some '_' → s.getLast? = some '_'
  | [] => by simp [collapseOnce]
  | [c] => by simp [collapseOnce]
  | c1 :: c2 :: rest => by
      simp only [collapseOnce]
      split
      · rename_i hc
        intro h
        cases rest with
        | nil => simp [hc.2]
        | cons d t =>
            rcases List.exists_cons_of_ne_nil (collapseOnce_cons d t) with ⟨b, t2, hbt⟩
            rw [hbt, List.getLast?_cons_cons] at h
            have := collapseOnce_last (d :: t) (by rw [hbt]; exact h)
            rwa [List.getLast?_cons_cons, List.getLast?_cons_cons]
      · intro h
        rcases List.exists_cons_of_ne_nil (collapseOnce_cons c2 rest) with ⟨b, t2, hbt⟩
        rw [hbt, List.getLast?_cons_cons] at h
        have := collapseOnce_last (c2 :: rest) (by rw [hbt]; exact h)
        rwa [List.getLast?_cons_cons]

theorem mem_collapseOnce : ∀ (s : List Char) (c : Char),
    c ∈ collapseOnce s → c ∈ s ∨ c = '_'
  | [] => by simp [collapseOnce]
  | [a] => by simp [collapseOnce]
  | c1 :: c2 :: rest => by
      intro c
      simp only [collapseOnce]
      split
      · rename_i hc
        intro h
        rcases List.mem_cons.mp h with h1 | h1
        · right; exact h1
        · rcases mem_collapseOnce rest c h1 with h2 | h2
          · left; exact List.mem_cons_of_mem _ (List.mem_cons_of_mem _ h2)
          · right; exact h2
      · intro h
        rcases List.mem_cons.mp h with h1 | h1
        · left; rw [h1]; exact List.mem_cons_self _ _
        · rcases mem_collapseOnce (c2 :: rest) c h1 with h2 | h2
          · left; exact List.mem_cons_of_mem _ h2
          · right; exact h2

theorem collapseOnce_length_le : ∀ s : List Char, (collapseOnce s).length ≤ s.length
  | [] => by simp [collapseOnce]
  | [a] => by simp [collapseOnce]
  | c1 :: c2 :: rest => by
      simp only [collapseOnce]
      split
      · have := collapseOnce_length_le rest
        simp only [List.length_cons]
        omega
      · have := collapseOnce_length_le (c2 :: rest)
        simp only [List.length_cons] at *
        omega

theorem collapseOnce_length_lt : ∀ s : List Char, hasDU s = true →
    (collapseOnce s).length < s.length
  | [] => by simp [hasDU]
  | [a] => by simp [hasDU]
  | c1 :: c2 :: rest => by
      intro h
      simp only [collapseOnce]
      split
      · have := collapseOnce_length_le rest
        simp only [List.length_cons]
        omega
      · rename_i hc
        have hdu : hasDU (c2 :: rest) = true := by
          simp only [hasDU, Bool.or_eq_true, Bool.and_eq_true, beq_iff_eq] at h
          rcases h with ⟨h1, h2⟩ | h
          · exact absurd ⟨h1, h2⟩ hc
          · exact h
        have := collapseOnce_length_lt (c2 :: rest) hdu
        simp only [List.length_cons] at *
        omega

theorem collapseFuel_post (n : Nat) : ∀ s : List Char, s.length ≤ n + 4 →
    4 < (collapseFuel n s).length → hasDU (collapseFuel n s) = false := by
  induction n with
  | zero =>
      intro s hs
      simp only [collapseFuel]
      intro h4
      exact absurd h4 (by omega)
  | succ n ih =>
      intro s hs
      simp only [collapseFuel]
      by_cases hc : 4 < s.length ∧ hasDU s = true
      · rw [if_pos hc]
        exact ih _ (by have := collapseOnce_length_lt s hc.2; omega)
      · rw [if_neg hc]
        intro h4
        rcases Bool.eq_false_or_eq_true (hasDU s) with h | h
        · exact absurd ⟨h4, h⟩ hc
        · exact h

theorem collapseFuel_id (n : Nat) (s : List Char)
    (h : ¬(4 < s.length ∧ hasDU s = true)) : collapseFuel n s = s := by
  cases n with
  | zero => rfl
  | succ n => simp only [collapseFuel, if_neg h]

theorem collapseFuel_last (n : Nat) : ∀ s : List Char,
    s.getLast? ≠ some '_' → (collapseFuel n s).getLast? ≠ some '_' := by
  induction n with
  | zero => intro s h; exact h
  | succ n ih =>
      intro s h
      simp only [collapseFuel]
      by_cases hc : 4 < s.length ∧ hasDU s = true
      · rw [if_pos hc]
        exact ih _ fun hl => h (collapseOnce_last s hl)
      · rwa [if_neg hc]

theorem mem_collapseFuel (n : Nat) : ∀ s c, c ∈ collapseFuel n s → c ∈ s ∨ c = '_' := by
  induction n with
  | zero => intro s c h; exact Or.inl h
  | succ n ih =>
      intro s c h
      simp only [collapseFuel] at h
      by_cases hc : 4 < s.length ∧ hasDU s = true
      · rw [if_pos hc] at h
        rcases ih _ c h with h1 | h1
        · exact mem_collapseOnce s c h1
        · exact Or.inr h1
      · rw [if_neg hc] at h
        exact Or.inl h

theorem collapseFuel_small (n : Nat) (s : List Char) (h : ¬ 4 < s.length) :
    collapseFuel n s = s :=
  collapseFuel_id n s fun hc => h hc.1

/-- Shape of the sanitizer output: if it is longer than 4 characters it has no
trailing underscore and no doubled underscore. Shared by claims C7 and C8. -/
theorem sanitizePost (base : List Char → List Char) (path : List Char) :
    4 < (sanitize_path base path).length →
      (sanitize_path base path).getLast? ≠ some '_' ∧
        hasDU (sanitize_path base path) = false := by
  intro h
  unfold sanitize_path at *
  have hs1 := stripFuel_post (replaceBad (base path)).length (replaceBad (base path))
    (by omega)
  constructor
  · by_cases h4 : 4 < (stripFuel (replaceBad (base path)).length (replaceBad (base path))).length
    · exact collapseFuel_last _ _ fun hl => hs1 ⟨h4, hl⟩
    · rw [collapseFuel_small _ _ h4] at h
      exact absurd h h4
  · exact collapseFuel_post _ _ (by omega) h

theorem replaceBad_mem (s : List Char) (c : Char) (h : c ∈ replaceBad s) :
    isBadChar c = false := by
  simp only [replaceBad, List.mem_map] at h
  rcases h with ⟨a, -, ha⟩
  by_cases hb : isBadChar a = true
  · rw [if_pos hb] at ha
    rw [← ha]
    decide
  · rw [if_neg hb] at ha
    rw [← ha]
    exact Bool.eq_false_iff.mpr hb

theorem replaceBad_id (s : List Char) (h : ∀ c ∈ s, isBadChar c = false) :
    replaceBad s = s := by
  induction s with
  | nil => rfl
  | cons a t ih =>
      simp only [replaceBad, List.map_cons]
      rw [if_neg (by rw [h a (List.mem_cons_self a t)]; exact Bool.false_ne_true)]
      have := ih fun c hc => h c (List.mem_cons_of_mem a hc)
      simp only [replaceBad] at this
      rw [this]

/-! ### Seed-scan lemmas -/

theorem findMagnet_none : ∀ lines : List (List Char),
    (∀ l ∈ lines, markerPfx.isPrefixOf l = false) → findMagnet lines = none
  | [] => fun _ => rfl
  | a :: t => fun h => by
      have ha := h a (List.mem_cons_self a t)
      simp only [findMagnet, ha, Bool.false_eq_true, if_false]
      exact findMagnet_none t fun l hl => h l (List.mem_cons_of_mem a hl)

theorem findMagnet_append :
    ∀ (pre : List (List Char)) (line : List Char) (post : List (List Char)),
      (∀ l ∈ pre, markerPfx.isPrefixOf l = false) →
      markerPfx.isPrefixOf line = true →
      findMagnet (pre ++ line :: post) = some (extractUri line)
  | [], line, post => fun _ hline => by
      simp only [List.nil_append, findMagnet, hline, if_true]
  | a :: t, line, post => fun hpre hline => by
      have ha := hpre a (List.mem_cons_self a t)
      simp only [List.cons_append, findMagnet, ha, Bool.false_eq_true, if_false]
      exact findMagnet_append t line post
        (fun l hl => hpre l (List.mem_cons_of_mem a hl)) hline

/-! ### Claim theorems -/

/-- Claim C7: for every input, whatever the base path-safety step returns, if
the sanitizer's output is longer than 4 characters it neither ends with an
underscore nor contains a doubled underscore. -/
theorem sanitize_path_shape (base : List Char → List Char) (path : List Char)
    (h : 4 < (sanitize_path base path).length) :
    (sanitize_path base path).getLast? ≠ some '_' ∧
      hasDU (sanitize_path base path) = false :=
  sanitizePost base path h

theorem sanitize_path_shape_wit :
    4 < (sanitize_path id ("hello world!".data)).length ∧
      ((sanitize_path id ("hello world!".data)).getLast? ≠ some '_' ∧
        hasDU (sanitize_path id ("hello world!".data)) = false) :=
  ⟨by decide, sanitize_path_shape id ("hello world!".data) (by decide)⟩

/-- Claim C8: the sanitizer is idempotent on inputs longer than 4 characters,
with the external base path-safety step (an opaque collaborator) assumed to fix
the already-sanitized output of the first application. -/
theorem sanitize_path_idem (base : List Char → List Char) (x : List Char)
    (hlen : 4 < x.length)
    (hbase : base (sanitize_path base x) = sanitize_path base x) :
    sanitize_path base (sanitize_path base x) = sanitize_path base x := by
  have hgood : ∀ c ∈ sanitize_path base x, isBadChar c = false := by
    intro c hc
    unfold sanitize_path at hc
    rcases mem_collapseFuel _ _ c hc with h1 | h1
    · exact replaceBad_mem _ c (mem_stripFuel _ _ c h1)
    · rw [h1]; decide
  have hrb : replaceBad (sanitize_path base x) = sanitize_path base x :=
    replaceBad_id _ hgood
  have hshape := sanitizePost base x
  have hstrip : stripFuel (sanitize_path base x).length (sanitize_path base x)
      = sanitize_path base x := by
    apply stripFuel_id
    rintro ⟨h4, hl⟩
    exact (hshape h4).1 hl
  have hcoll : ∀ n, collapseFuel n (sanitize_path base x) = sanitize_path base x := by
    intro n
    apply collapseFuel_id
    rintro ⟨h4, hd⟩
    rw [(hshape h4).2] at hd
    exact Bool.false_ne_true hd
  set out := sanitize_path base x with hout
  show collapseFuel
      (stripFuel (replaceBad (base out)).length (replaceBad (base out))).length
      (stripFuel (replaceBad (base out)).length (replaceBad (base out))) = out
  rw [hbase, hrb, hstrip]
  exact hcoll out.length

theorem sanitize_path_idem_wit :
    4 < ("abcdef".data).length ∧
      sanitize_path id (sanitize_path id ("abcdef".data))
        = sanitize_path id ("abcdef".data) :=
  ⟨by decide, sanitize_path_idem id ("abcdef".data) (by decide) rfl⟩

/-- Claim C1 (counterexample): on a stream whose marker line is
`magnetURI: a\tb c\n`, `seed_movie` does not return the remainder up to the
first whitespace character (which would be `a`, the tab being whitespace): it
returns `line.split(" ")[1].strip()`, i.e. `a\tb`. -/
theorem seed_extract_cex :
    ¬ (seed_movie ["magnetURI: a\tb c\n".data] [] =
        (some (specExtract ("magnetURI: a\tb c\n".data)),
         aset [] "magnetURI"
           (Val.vstr (String.mk (specExtract ("magnetURI: a\tb c\n".data)))))) := by
  decide

/-- Claim C1 (amended): for every stream containing a marker line,
`seed_movie` scans to the first such line, stops there (later lines do not
affect the result), returns that line's second space-delimited field stripped
of surrounding whitespace, and stores that same string under `magnetURI`. -/
theorem seed_movie_first_marker (st : AppState) (pre : List (List Char))
    (line : List Char) (post : List (List Char))
    (hpre : ∀ l ∈ pre, markerPfx.isPrefixOf l = false)
    (hline : markerPfx.isPrefixOf line = true) :
    seed_movie (pre ++ line :: post) st =
      (some (extractUri line),
       aset st "magnetURI" (Val.vstr (String.mk (extractUri line)))) := by
  unfold seed_movie
  rw [findMagnet_append pre line post hpre hline]

theorem seed_movie_first_marker_wit :
    (markerPfx.isPrefixOf ("magnetURI: abc123\n".data) = true) ∧
      seed_movie ["hello\n".data, "magnetURI: abc123\n".data, "more\n".data] [] =
        (some (extractUri ("magnetURI: abc123\n".data)),
         aset [] "magnetURI"
           (Val.vstr (String.mk (extractUri ("magnetURI: abc123\n".data))))) :=
  ⟨by decide,
   seed_movie_first_marker [] ["hello\n".data] ("magnetURI: abc123\n".data)
     ["more\n".data] (by decide) (by decide)⟩

/-- Claim C2: if the stream ends before any marker line is observed,
`seed_movie` fails to produce a magnet URI and the state store's `magnetURI`
key is not written (the state is returned unchanged). -/
theorem seed_movie_no_marker (lines : List (List Char)) (st : AppState)
    (h : ∀ l ∈ lines, markerPfx.isPrefixOf l = false) :
    seed_movie lines st = (none, st) := by
  unfold seed_movie
  rw [findMagnet_none lines h]

theorem seed_movie_no_marker_wit :
    (∀ l ∈ [("hello\n".data), ("world\n".data)], markerPfx.isPrefixOf l = false) ∧
      seed_movie [("hello\n".data), ("world\n".data)]
          [("views", Val.vint 3)] = (none, [("views", Val.vint 3)]) :=
  ⟨by decide,
   seed_movie_no_marker [("hello\n".data), ("world\n".data)]
     [("views", Val.vint 3)] (by decide)⟩

/-- Claim C3: an upload whose declared filename does not end with `.mp4` is
rejected with status 410 before any disk I/O: the filesystem and the state
store are unchanged and no seeding process runs. -/
theorem upload_rejects_bad_ext (st : AppState) (fs : FS) (env : UploadEnv)
    (h : pyEndsWith env.filename ".mp4" = false) :
    upload st fs env = (⟨410, "Invalid file type, must be mp4"⟩, fs, st) := by
  unfold upload
  rw [if_pos h]

theorem upload_rejects_bad_ext_wit :
    (pyEndsWith "movie.avi" ".mp4" = false) ∧
      upload [("views", Val.vint 1)] [("x.mp4", [2])]
          (⟨"movie.avi", [1], "tmp_aa.mp4", [], false, ""⟩ : UploadEnv) =
        (⟨410, "Invalid file type, must be mp4"⟩, [("x.mp4", [2])],
         [("views", Val.vint 1)]) :=
  ⟨by decide, upload_rejects_bad_ext _ _ _ (by decide)⟩

/-- Claim C4: uploading a `.mp4` name whose final path already holds a file of
a different byte size fails with the collision error surfaced as status 500,
the temp file is removed, and the pre-existing file is left byte-for-byte
unchanged (the state store is untouched as well). -/
theorem upload_collision_spec (st : AppState) (fs : FS) (env : UploadEnv)
    (orig : List Nat)
    (hmp4 : pyEndsWith env.filename ".mp4" = true)
    (hne : env.tmpPath ≠ env.filename)
    (horig : alookup fs env.filename = some orig)
    (hsz : orig.length ≠ env.content.length)
    (hrm : env.removeTmpFails = false) :
    (upload st fs env).1 = ⟨500, collisionMsg⟩ ∧
      alookup (upload st fs env).2.1 env.filename = some orig ∧
      alookup (upload st fs env).2.1 env.tmpPath = none ∧
      (upload st fs env).2.2 = st := by
  have hne2 : env.filename ≠ env.tmpPath := Ne.symm hne
  have hf1f : alookup (aset fs env.tmpPath env.content) env.filename = some orig := by
    rw [alookup_aset_ne fs env.tmpPath env.content env.filename hne2]
    exact horig
  have hf1t : alookup (aset fs env.tmpPath env.content) env.tmpPath
      = some env.content :=
    alookup_aset_self fs env.tmpPath env.content
  have hex : aexists (aset fs env.tmpPath env.content) env.filename = true := by
    rw [aexists, hf1f]
    rfl
  have htry : uploadTry st (aset fs env.tmpPath env.content) env =
      ⟨none, some collisionMsg, aset fs env.tmpPath env.content, st⟩ := by
    unfold uploadTry
    rw [hex, if_neg (by decide), hf1f, hf1t]
    simp only [Option.getD_some]
    rw [if_neg hsz]
  have hup : upload st fs env =
      (⟨500, collisionMsg⟩,
       aremove (aset fs env.tmpPath env.content) env.tmpPath, st) := by
    unfold upload
    rw [if_neg (by simp [hmp4]), htry]
    unfold uploadFinally
    dsimp only
    rw [show aexists (aset fs env.tmpPath env.content) env.tmpPath = true by
          rw [aexists, hf1t]; rfl,
        if_pos rfl, hrm, if_neg (by decide)]
    unfold uploadRespond
    dsimp only
  rw [hup]
  refine ⟨rfl, ?_, ?_, rfl⟩
  · dsimp only
    rw [alookup_aremove_ne _ _ _ hne2]
    exact hf1f
  · dsimp only
    exact alookup_aremove_self _ _

theorem upload_collision_spec_wit :
    (alookup [("a.mp4", [1, 2])] "a.mp4" = some [1, 2]) ∧
      ((upload [] [("a.mp4", [1, 2])]
          (⟨"a.mp4", [1], "tmp_ff.mp4", [], false, ""⟩ : UploadEnv)).1
            = ⟨500, collisionMsg⟩ ∧
        alookup (upload [] [("a.mp4", [1, 2])]
          (⟨"a.mp4", [1], "tmp_ff.mp4", [], false, ""⟩ : UploadEnv)).2.1 "a.mp4"
            = some [1, 2] ∧
        alookup (upload [] [("a.mp4", [1, 2])]
          (⟨"a.mp4", [1], "tmp_ff.mp4", [], false, ""⟩ : UploadEnv)).2.1 "tmp_ff.mp4"
            = none ∧
        (upload [] [("a.mp4", [1, 2])]
          (⟨"a.mp4", [1], "tmp_ff.mp4", [], false, ""⟩ : UploadEnv)).2.2 = []) :=
  ⟨by decide,
   upload_collision_spec [] [("a.mp4", [1, 2])]
     (⟨"a.mp4", [1], "tmp_ff.mp4", [], false, ""⟩ : UploadEnv) [1, 2]
     (by decide) (by decide) (by decide) (by decide) rfl⟩

/-- Claim C5: uploading a `.mp4` name whose final path already holds a file of
exactly the same byte size succeeds: the temp file is discarded (none remains),
the existing final file is kept and used for seeding, the magnet URI is
returned with status 200, and the state store records it. Seeding itself is
assumed to produce a marker line (hypothesis `hseed`). -/
theorem upload_duplicate_spec (st : AppState) (fs : FS) (env : UploadEnv)
    (orig : List Nat) (uri : List Char)
    (hmp4 : pyEndsWith env.filename ".mp4" = true)
    (hne : env.tmpPath ≠ env.filename)
    (horig : alookup fs env.filename = some orig)
    (hsz : orig.length = env.content.length)
    (hseed : findMagnet env.seedLines = some uri) :
    (upload st fs env).1 = ⟨200, String.mk uri⟩ ∧
      alookup (upload st fs env).2.1 env.filename = some orig ∧
      alookup (upload st fs env).2.1 env.tmpPath = none ∧
      (upload st fs env).2.2
        = aset st "magnetURI" (Val.vstr (String.mk uri)) := by
  have hne2 : env.filename ≠ env.tmpPath := Ne.symm hne
  have hf1f : alookup (aset fs env.tmpPath env.content) env.filename = some orig := by
    rw [alookup_aset_ne fs env.tmpPath env.content env.filename hne2]
    exact horig
  have hf1t : alookup (aset fs env.tmpPath env.content) env.tmpPath
      = some env.content :=
    alookup_aset_self fs env.tmpPath env.content
  have hex : aexists (aset fs env.tmpPath env.content) env.filename = true := by
    rw [aexists, hf1f]
    rfl
  have htry : uploadTry st (aset fs env.tmpPath env.content) env =
      ⟨some (String.mk uri), none,
       aremove (aset fs env.tmpPath env.content) env.tmpPath,
       aset st "magnetURI" (Val.vstr (String.mk uri))⟩ := by
    unfold uploadTry
    rw [hex, if_neg (by decide), hf1f, hf1t]
    simp only [Option.getD_some]
    rw [if_pos hsz]
    unfold seed_movie
    rw [hseed]
  have hexr : aexists
      (aremove (aset fs env.tmpPath env.content) env.tmpPath) env.tmpPath = false := by
    rw [aexists, alookup_aremove_self]
    rfl
  have hup : upload st fs env =
      (⟨200, String.mk uri⟩,
       aremove (aset fs env.tmpPath env.content) env.tmpPath,
       aset st "magnetURI" (Val.vstr (String.mk uri))) := by
    unfold upload
    rw [if_neg (by simp [hmp4]), htry]
    unfold uploadFinally
    dsimp only
    rw [hexr, if_neg (by decide)]
    unfold uploadRespond
    simp only [Option.getD_some]
  rw [hup]
  refine ⟨rfl, ?_, ?_, rfl⟩
  · dsimp only
    rw [alookup_aremove_ne _ _ _ hne2]
    exact hf1f
  · dsimp only
    exact alookup_aremove_self _ _

theorem upload_duplicate_spec_wit :
    (findMagnet [("magnetURI: abc\n".data)] = some ("abc".data)) ∧
      ((upload [] [("a.mp4", [9])]
          (⟨"a.mp4", [1], "tmp_ff.mp4", [("magnetURI: abc\n".data)], false, ""⟩
            : UploadEnv)).1 = ⟨200, String.mk ("abc".data)⟩ ∧
        alookup (upload [] [("a.mp4", [9])]
          (⟨"a.mp4", [1], "tmp_ff.mp4", [("magnetURI: abc\n".data)], false, ""⟩
            : UploadEnv)).2.1 "a.mp4" = some [9] ∧
        alookup (upload [] [("a.mp4", [9])]
          (⟨"a.mp4", [1], "tmp_ff.mp4", [("magnetURI: abc\n".data)], false, ""⟩
            : UploadEnv)).2.1 "tmp_ff.mp4" = none ∧
        (upload [] [("a.mp4", [9])]
          (⟨"a.mp4", [1], "tmp_ff.mp4", [("magnetURI: abc\n".data)], false, ""⟩
            : UploadEnv)).2.2
          = aset [] "magnetURI" (Val.vstr (String.mk ("abc".data)))) :=
  ⟨by decide,
   upload_duplicate_spec [] [("a.mp4", [9])]
     (⟨"a.mp4", [1], "tmp_ff.mp4", [("magnetURI: abc\n".data)], false, ""⟩
       : UploadEnv) [9] ("abc".data)
     (by decide) (by decide) (by decide) (by decide) (by decide)⟩

/-- Claim C6 (counterexample): when a collision error is followed by a failing
temp-file removal, the error response reports only the cleanup failure — the
primary collision error is overwritten, not reported alongside it. -/
theorem upload_cleanup_cex :
    (upload [] [("a.mp4", [1, 2])]
        (⟨"a.mp4", [1], "tmp_ff.mp4", [], true, "Permission denied"⟩
          : UploadEnv)).1.status = 500 ∧
      (upload [] [("a.mp4", [1, 2])]
        (⟨"a.mp4", [1], "tmp_ff.mp4", [], true, "Permission denied"⟩
          : UploadEnv)).1.content = deleteMsg "Permission denied" ∧
      strContains (upload [] [("a.mp4", [1, 2])]
        (⟨"a.mp4", [1], "tmp_ff.mp4", [], true, "Permission denied"⟩
          : UploadEnv)).1.content "A file already exists" = false := by
  decide

/-- Claim C6 (amended): on every failure of the try block after the temp file
is created, cleanup runs: if removal succeeds (or the temp file is already
gone) no temp file remains and the primary error is surfaced with status 500;
if removal itself fails while the temp file still exists, the response is
status 500 carrying the cleanup failure, which replaces the primary error
message; in both cases state changes applied inside the try block are kept. -/
theorem upload_cleanup_spec (st : AppState) (fs : FS) (env : UploadEnv)
    (e : String)
    (hmp4 : pyEndsWith env.filename ".mp4" = true)
    (hexc : (uploadTry st (aset fs env.tmpPath env.content) env).exc = some e) :
    ((env.removeTmpFails = false →
        alookup (upload st fs env).2.1 env.tmpPath = none ∧
          (upload st fs env).1 = ⟨500, e⟩) ∧
      (env.removeTmpFails = true ∧
          aexists (uploadTry st (aset fs env.tmpPath env.content) env).fs
            env.tmpPath = true →
        (upload st fs env).1 = ⟨500, deleteMsg env.removeTmpErr⟩) ∧
      (upload st fs env).2.2
        = (uploadTry st (aset fs env.tmpPath env.content) env).st) := by
  have hup : upload st fs env =
      uploadRespond (uploadTry st (aset fs env.tmpPath env.content) env)
        (uploadFinally (uploadTry st (aset fs env.tmpPath env.content) env) env) := by
    unfold upload
    rw [if_neg (by simp [hmp4])]
  set t := uploadTry st (aset fs env.tmpPath env.content) env with ht
  rw [hup]
  by_cases hex : aexists t.fs env.tmpPath = true
  · by_cases hrm : env.removeTmpFails = true
    · have hfin : uploadFinally t env = (t.fs, some (deleteMsg env.removeTmpErr)) := by
        unfold uploadFinally
        rw [hex, if_pos rfl, hrm, if_pos rfl]
      rw [hfin]
      unfold uploadRespond
      dsimp only
      exact ⟨fun hc => absurd (hc.symm.trans hrm) (by decide),
             fun _ => rfl, rfl⟩
    · have hrmf : env.removeTmpFails = false := Bool.eq_false_iff.mpr hrm
      have hfin : uploadFinally t env = (aremove t.fs env.tmpPath, t.exc) := by
        unfold uploadFinally
        rw [hex, if_pos rfl, hrmf, if_neg (by decide)]
      rw [hfin]
      unfold uploadRespond
      dsimp only
      rw [hexc]
      exact ⟨fun _ => ⟨alookup_aremove_self _ _, rfl⟩,
             fun hc => absurd (hrmf.symm.trans hc.1) (by decide), rfl⟩
  · have hexf : aexists t.fs env.tmpPath = false := Bool.eq_false_iff.mpr hex
    have hnone : alookup t.fs env.tmpPath = none := by
      cases h : alookup t.fs env.tmpPath with
      | none => rfl
      | some v =>
          rw [aexists, h, Option.isSome_some] at hexf
          exact absurd hexf (by decide)
    have hfin : uploadFinally t env = (t.fs, t.exc) := by
      unfold uploadFinally
      rw [hexf, if_neg (by decide)]
    rw [hfin]
    unfold uploadRespond
    dsimp only
    rw [hexc]
    exact ⟨fun _ => ⟨hnone, rfl⟩,
           fun hc => absurd (hexf.symm.trans hc.2) (by decide), rfl⟩

theorem upload_cleanup_spec_wit :
    ((uploadTry [] (aset [("a.mp4", [1, 2])] "tmp_ff.mp4" [1])
        (⟨"a.mp4", [1], "tmp_ff.mp4", [], false, ""⟩ : UploadEnv)).exc
          = some collisionMsg) ∧
      ((false = false →
          alookup (upload [] [("a.mp4", [1, 2])]
            (⟨"a.mp4", [1], "tmp_ff.mp4", [], false, ""⟩ : UploadEnv)).2.1
              "tmp_ff.mp4" = none ∧
            (upload [] [("a.mp4", [1, 2])]
              (⟨"a.mp4", [1], "tmp_ff.mp4", [], false, ""⟩ : UploadEnv)).1
                = ⟨500, collisionMsg⟩) ∧
        (false = true ∧
            aexists (uploadTry [] (aset [("a.mp4", [1, 2])] "tmp_ff.mp4" [1])
              (⟨"a.mp4", [1], "tmp_ff.mp4", [], false, ""⟩ : UploadEnv)).fs
              "tmp_ff.mp4" = true →
          (upload [] [("a.mp4", [1, 2])]
            (⟨"a.mp4", [1], "tmp_ff.mp4", [], false, ""⟩ : UploadEnv)).1
              = ⟨500, deleteMsg ""⟩) ∧
        (upload [] [("a.mp4", [1, 2])]
          (⟨"a.mp4", [1], "tmp_ff.mp4", [], false, ""⟩ : UploadEnv)).2.2
            = (uploadTry [] (aset [("a.mp4", [1, 2])] "tmp_ff.mp4" [1])
              (⟨"a.mp4", [1], "tmp_ff.mp4", [], false, ""⟩ : UploadEnv)).st) :=
  ⟨by decide,
   upload_cleanup_spec [] [("a.mp4", [1, 2])]
     (⟨"a.mp4", [1], "tmp_ff.mp4", [], false, ""⟩ : UploadEnv) collisionMsg
     (by decide) (by decide)⟩

/-- Claim C9: `/clear` removes every key from the persisted state (in
particular `views` and `magnetURI` are absent afterwards), creates or touches
the restart sentinel file in the service root, and returns a plain-text
acknowledgement. -/
theorem clear_spec (st : AppState) (fs : FS) :
    alookup (clear st fs).2.1 "views" = none ∧
      alookup (clear st fs).2.1 "magnetURI" = none ∧
      aexists (clear st fs).2.2 "restart.file" = true ∧
      (clear st fs).1 = ⟨200, "Server queued for restart."⟩ := by
  refine ⟨rfl, rfl, ?_, rfl⟩
  show aexists (touch fs "restart.file") "restart.file" = true
  unfold touch
  cases h : alookup fs "restart.file" with
  | some v => rw [aexists, h]; rfl
  | none => rw [aexists, alookup_aset_self]; rfl

/-- Claim C10: when no `magnetURI` key is present in the state store,
`/accessMagnetURI` answers with the field `magnetURI` bound to the literal
string `"None"` — a string value, present, and not JSON null. -/
theorem accessMagnetURI_default (st : AppState) (b : Bool)
    (h : alookup st "magnetURI" = none) :
    alookup (api_add_view st b).1 "magnetURI" = some (JVal.jstr "None") ∧
      JVal.jstr "None" ≠ JVal.jnull := by
  refine ⟨?_, by decide⟩
  unfold api_add_view
  cases b with
  | false =>
      dsimp only
      show alookup [("views", kvGetJson st "views" (JVal.jint 0)),
        ("magnetURI", kvGetJson st "magnetURI" (JVal.jstr "None")),
        ("add_view", JVal.jbool false)] "magnetURI" = some (JVal.jstr "None")
      rw [show kvGetJson st "magnetURI" (JVal.jstr "None") = JVal.jstr "None" by
            unfold kvGetJson; rw [h]]
      simp [alookup]
  | true =>
      dsimp only
      rw [if_pos rfl]
      have h1 : alookup (atomic_add st "views" 1) "magnetURI" = none := by
        unfold atomic_add
        rw [alookup_aset_ne _ _ _ _ (by decide)]
        exact h
      rw [show kvGetJson (atomic_add st "views" 1) "magnetURI" (JVal.jstr "None")
            = JVal.jstr "None" by unfold kvGetJson; rw [h1]]
      simp [alookup]

theorem accessMagnetURI_default_wit :
    (alookup ([] : AppState) "magnetURI" = none) ∧
      (alookup (api_add_view ([] : AppState) true).1 "magnetURI"
          = some (JVal.jstr "None") ∧
        JVal.jstr "None" ≠ JVal.jnull) :=
  ⟨rfl, accessMagnetURI_default ([] : AppState) true rfl⟩

end Wms
